import Mathlib

/-!
# Verification of the CATMAID skeleton source manager

A shallow embedding of
`django/applications/catmaid/static/libs/catmaid/skeleton_source_manager.js`.

Skeleton sources ("selection providers") are JavaScript objects living
outside the manager; the manager stores references to them in the plain
object `this.sources`, keyed by `source.getName()`.  We model object
references as natural numbers resolved through an explicit heap
`Nat → Provider`, so that the JavaScript identity comparisons
(`s.linkTarget === source`, `source === caller`) become equality of
references, and in-place mutation of a provider (e.g. `delete s.linkTarget`)
becomes a pointwise heap update visible through every alias.

A JavaScript object used as a string-keyed map is modelled as an
association list in insertion order: assignment to an existing key keeps
its position, assignment to a fresh key appends, `delete` removes the
entry, and indexing returns the first (unique, in practice) entry.
-/

namespace CATMAID

/-- Modelled from the spec: a Selection Provider as seen through the
capability contract of §3/§4.2 (the provider implementations are not part
of the reviewed sources).  `name` is the value of `getName()`, `selection`
the identifier sequence behind `getSelectedSkeletons()`/`hasSkeleton`,
`models` the identifier-to-model mapping behind `getSelectedSkeletonModels()`,
`linkTarget` the optional weak reference to another provider (held as a
heap reference), and `hasSetVisible` records whether the object implements
the optional `setVisible` capability (the `typeof` probe). -/
structure Provider where
  name : String
  selection : List Nat
  models : List (Nat × Nat)
  linkTarget : Option Nat
  hasSetVisible : Bool
deriving DecidableEq

/-- Modelled from the spec: the provider's `hasSkeleton(id)` capability is
consistent with its selection (§4.2 (c)): membership in `selection`. -/
def Provider.hasSkeleton (p : Provider) (skid : Nat) : Bool :=
  p.selection.contains skid

/-- Modelled from the spec: a contract-honouring provider `removeSkeletons`
implementation (§4.2 (d)): drops the given identifiers from the selection.
Used to instantiate theorems that assume the capability contract. -/
def providerRemoveSkeletons (p : Provider) (ids : List Nat) : Provider :=
  { p with selection := p.selection.filter (fun i => ! ids.contains i) }

/-- The heap of provider objects: a reference (`Nat`) resolves to the
current state of the object it denotes. -/
def Heap : Type := Nat → Provider

/-- Pointwise heap update at one reference (in-place mutation of the
object all aliases of `r` see). -/
def hUpdate (h : Heap) (r : Nat) (f : Provider → Provider) : Heap :=
  fun x => if x = r then f (h x) else h x

/-- JavaScript `m[k] = v` on a string-keyed object: overwrite the entry in
place when the key is present (a JavaScript object holds at most one slot
per key, so replacing the first occurrence is exact on every reachable
table), append a fresh entry otherwise. -/
def objSet (k : String) (v : Nat) : List (String × Nat) → List (String × Nat)
  | [] => [(k, v)]
  | e :: m => if e.1 = k then (k, v) :: m else e :: objSet k v m

/-- JavaScript `m[k]`: the first entry under key `k`, absent otherwise. -/
def objGet (k : String) (m : List (String × Nat)) : Option Nat :=
  (m.find? (fun e => e.1 = k)).map Prod.snd

/-- JavaScript `delete m[k]`. -/
def objDelete (k : String) (m : List (String × Nat)) : List (String × Nat) :=
  m.filter (fun e => e.1 ≠ k)

/-- The manager state: the heap of provider objects together with
`this.sources`, the name-keyed table of provider references. -/
structure SSMState where
  heap : Heap
  sources : List (String × Nat)

/-- Embeds `SkeletonSourceManager.prototype.add`:
`this.sources[source.getName()] = source;`. -/
def add (st : SSMState) (src : Nat) : SSMState :=
  { st with sources := objSet ((st.heap src).name) src st.sources }

/-- A sequence of `add` calls starting from an empty registry over a fixed
heap of provider objects. -/
def addAll (h : Heap) (rs : List Nat) : SSMState :=
  rs.foldl add { heap := h, sources := [] }

/-- The link-clearing loop of `remove`: for each remaining entry,
`if (s.linkTarget === source) delete s.linkTarget;`. -/
def clearLinks (src : Nat) (entries : List (String × Nat)) (h : Heap) : Heap :=
  entries.foldl
    (fun hh e =>
      if (hh e.2).linkTarget = some src then
        hUpdate hh e.2 (fun p => { p with linkTarget := none })
      else hh)
    h

/-- Embeds `SkeletonSourceManager.prototype.remove`: delete the entry under the
argument's name, then scan the remaining entries and clear every
`linkTarget` that references the removed object.  (The `updateGUI()` call
in between only rebuilds presentation state derived from `sources`; it is
modelled separately by `rebuiltOptions`.) -/
def remove (st : SSMState) (src : Nat) : SSMState :=
  let sources1 := objDelete ((st.heap src).name) st.sources
  { heap := clearLinks src sources1 st.heap, sources := sources1 }

/-- Embeds `SkeletonSourceManager.prototype.findDifference`: reduce over the keys
of `models`, keeping exactly the entries whose key the source does not
have.  (A pure function: the JavaScript builds a fresh object `o` and
touches neither argument.) -/
def findDifference (source : Provider) (models : List (Nat × Nat)) : List (Nat × Nat) :=
  models.foldl (fun o kv => if ! source.hasSkeleton kv.1 then o ++ [kv] else o) []

/-- JavaScript string comparison (as used by the default `Array.sort`
comparator on `Object.keys(this.sources)`): lexicographic on code units,
here on the character lists underlying the names. -/
def jsCharLe : List Char → List Char → Bool
  | [], _ => true
  | _ :: _, [] => false
  | a :: as, b :: bs => if a = b then jsCharLe as bs else decide (a < b)

/-- Embeds `SkeletonSourceManager.prototype.createOptions`:
`Object.keys(this.sources).sort().map(...)` — the registered names in
lexicographic order, each becoming an `Option(name, name)` pair (we keep
the name, the value being equal to it). -/
def createOptions (st : SSMState) : List String :=
  List.insertionSort (fun a b => jsCharLe a.data b.data = true)
    (st.sources.map Prod.fst)

/-- The first 23 characters of every select element id built by
`createSelectID`. -/
def selectIdStart : List Char := "skeleton-source-select-".data

/-- The marker `'-push-'` that `updateGUI` searches for in a select id. -/
def pushMarker : List Char := "-push-".data

/-- Embeds `SkeletonSourceManager.prototype.createSelectID`:
`'skeleton-source-select-' + source.getName().replace(/ /g, '-')`. -/
def createSelectID (name : List Char) : List Char :=
  selectIdStart ++ name.map (fun c => if c = ' ' then '-' else c)

/-- JavaScript `String.prototype.indexOf(pat)`: index of the first
occurrence of `pat`, absent when there is none. -/
def indexOfSub : List Char → List Char → Option Nat
  | [], pat => if pat.isPrefixOf ([] : List Char) then some 0 else none
  | c :: rest, pat =>
    if pat.isPrefixOf (c :: rest) then some 0
    else (indexOfSub rest pat).map (· + 1)

/-- JavaScript `String.prototype.substring(a, b)`: the characters between
the two indices, which are swapped when `a > b` and clamped to the
length. -/
def jsSubstring (s : List Char) (a b : Nat) : List Char :=
  (s.take (max a b)).drop (min a b)

/-- The name-decoding step of `SkeletonSourceManager.prototype.updateGUI`:
`var ipush = this.id.indexOf('-push-');`
`var name = (-1 === ipush ? this.id.substring(23) : this.id.substring(23, ipush))`
followed by a global replacement of each hyphen by a space. -/
def decodeSelectName (id : List Char) : List Char :=
  (match indexOfSub id pushMarker with
   | none => jsSubstring id 23 id.length
   | some i => jsSubstring id 23 i).map (fun c => if c = '-' then ' ' else c)

/-- The provider-name options `SkeletonSourceManager.prototype.createSelect`
adds for provider `src` at initial build: every option except the one whose
value equals the provider's own name (`if (option.value !== name) ...`). -/
def createSelectOptions (st : SSMState) (src : Nat) : List String :=
  (createOptions st).filter (fun v => v ≠ (st.heap src).name)

/-- The provider-name options `updateGUI` re-adds to the select element
with the given id at rebuild: every option except the one whose value
equals the name decoded from the id (`if (option.value === name) return;`).
(The preserved `'None'` void entry of push selects is not a provider-name
option and is outside this list.) -/
def rebuiltOptions (st : SSMState) (id : List Char) : List String :=
  (createOptions st).filter (fun v => v.data ≠ decodeSelectName id)

/-- A user-visible informational signal: either a console log line or a
non-blocking `growlAlert('Info', msg)` notice. -/
inductive Signal where
  | consoleLog (msg : String)
  | growlInfo (msg : String)
deriving DecidableEq

/-- Embeds `SkeletonSourceManager.prototype.getSelectedSource`:
`this.sources[$('#' + this.createSelectID(ref_source)).val()]`.  The value
of the select element is external DOM state; modelled from the spec as a
mapping `sel` from select ids to the chosen name (absent when the element
is missing or nothing is chosen). -/
def getSelectedSource (st : SSMState) (sel : List Char → Option String)
    (ref : Nat) : Option Nat :=
  match sel (createSelectID (st.heap ref).name.data) with
  | none => none
  | some v => objGet v st.sources

/-- Embeds `SkeletonSourceManager.prototype.getSelectedSkeletons`: resolve the
counterpart; when none resolves, log and return `[]`; otherwise return its
selection, growling `'No skeletons available at ...'` when it is empty.
The provider's `getSelectedSkeletons()` is modelled from the spec as its
`selection`. -/
def getSelectedSkeletons (st : SSMState) (sel : List Char → Option String)
    (ref : Nat) : List Nat × Option Signal :=
  match getSelectedSource st sel ref with
  | none =>
    ([], some (.consoleLog ("No source found for reference source " ++ (st.heap ref).name)))
  | some src =>
    let skeletons := (st.heap src).selection
    (skeletons,
     if skeletons.length = 0 then
       some (.growlInfo ("No skeletons available at " ++ (st.heap src).name))
     else none)

/-- Embeds `SkeletonSourceManager.prototype.getSelectedSkeletonModels`: resolve
the counterpart; when none resolves, log and return an empty mapping;
otherwise return its models, growling `'No skeletons selected at ...'`
when the mapping is empty.  The provider's `getSelectedSkeletonModels()`
is modelled from the spec as its `models` mapping. -/
def getSelectedSkeletonModels (st : SSMState) (sel : List Char → Option String)
    (ref : Nat) : List (Nat × Nat) × Option Signal :=
  match getSelectedSource st sel ref with
  | none =>
    ([], some (.consoleLog ("No source found for reference source " ++ (st.heap ref).name)))
  | some src =>
    let models := (st.heap src).models
    (models,
     if models.length = 0 then
       some (.growlInfo ("No skeletons selected at " ++ (st.heap src).name))
     else none)

/-- Embeds `SkeletonSourceManager.prototype.highlight`: iterate the table and call
`source.highlight(skeleton_id)` on every entry whose object is not
(reference-)identical to `caller`.  We record the invocation trace, the
provider-side effect being external. -/
def highlightBroadcast (st : SSMState) (caller : Nat) (skid : Nat) : List (Nat × Nat) :=
  st.sources.foldl
    (fun acc e => if e.2 = caller then acc else acc ++ [(e.2, skid)]) []

/-- Embeds `SkeletonSourceManager.prototype.removeSkeletons`: iterate the table and
call `this.sources[name].removeSkeletons(skeleton_ids)` on every entry.
The provider method is external, so it is a parameter `rm`; the result is
the updated state together with the trace of `(reference, ids)` calls. -/
def removeSkeletonsBroadcast (rm : Provider → List Nat → Provider)
    (st : SSMState) (ids : List Nat) : SSMState × List (Nat × List Nat) :=
  st.sources.foldl
    (fun acc e =>
      ({ acc.1 with heap := hUpdate acc.1.heap e.2 (fun p => rm p ids) },
       acc.2 ++ [(e.2, ids)]))
    (st, [])

/-- Embeds `SkeletonSourceManager.prototype.setVisible`: iterate the table and call
`source.setVisible(skeleton_ids, visible)` exactly on the entries whose
object passes the `typeof(source['setVisible']) === 'function'` probe.  We
record the invocation trace. -/
def setVisibleBroadcast (st : SSMState) (ids : List Nat) (visible : Bool) :
    List (Nat × (List Nat × Bool)) :=
  st.sources.foldl
    (fun acc e =>
      if (st.heap e.2).hasSetVisible then acc ++ [(e.2, (ids, visible))] else acc)
    []

/-! ### Concrete provider objects and states, used to witness the theorems -/

/-- A provider named `P` with nothing selected. -/
def provP : Provider := ⟨"P", [], [], none, false⟩

/-- A provider named `Q` whose `linkTarget` references heap object `0`. -/
def provQ : Provider := ⟨"Q", [], [], some 0, false⟩

/-- A provider named `Z`, registered nowhere in the witness states. -/
def provZ : Provider := ⟨"Z", [], [], none, false⟩

/-- A witness heap: reference `0` is `provP`, reference `1` is `provQ`,
anything else `provZ`. -/
def heapPQ : Heap := fun r => if r = 0 then provP else if r = 1 then provQ else provZ

/-- A witness state with `provP` and `provQ` registered. -/
def stPQ : SSMState := ⟨heapPQ, [("P", 0), ("Q", 1)]⟩

/-- One of two distinct providers sharing the name `A`. -/
def provA1 : Provider := ⟨"A", [1], [], none, false⟩

/-- The other provider named `A`, distinguishable by its selection. -/
def provA2 : Provider := ⟨"A", [2], [], none, false⟩

/-- A heap holding the two same-named providers at references 0 and 1. -/
def heapAA : Heap := fun r => if r = 0 then provA1 else provA2

/-- The state reached by `add`-ing reference 0 and then reference 1, both
named `A`: the second `add` overwrites the first. -/
def stAA : SSMState := addAll heapAA [0, 1]

/-- A provider named `S` holding skeletons 5 and 7. -/
def provS : Provider := ⟨"S", [5, 7], [], none, false⟩

/-- A witness state with `provS` registered. -/
def stS : SSMState := ⟨fun _ => provS, [("S", 0)]⟩

/-- A provider named `A` with empty selection and empty model mapping. -/
def provEmptyA : Provider := ⟨"A", [], [], none, false⟩

/-- A witness state with only `provEmptyA` registered. -/
def stEmptyA : SSMState := ⟨fun _ => provEmptyA, [("A", 0)]⟩

/-- External selection state choosing the unregistered name `B` everywhere. -/
def selB : List Char → Option String := fun _ => some "B"

/-- External selection state choosing the registered name `A` everywhere. -/
def selA : List Char → Option String := fun _ => some "A"

/-- A provider whose name contains a hyphen. -/
def provHyphen : Provider := ⟨"a-b", [], [], none, false⟩

/-- A companion provider named `x`. -/
def provX : Provider := ⟨"x", [], [], none, false⟩

/-- A heap holding `provHyphen` at reference 0 and `provX` elsewhere. -/
def heapHy : Heap := fun r => if r = 0 then provHyphen else provX

/-- A witness state with the hyphen-named provider and `provX` registered. -/
def stHy : SSMState := ⟨heapHy, [("a-b", 0), ("x", 1)]⟩

/-- A hyphen-free provider named `Main view`. -/
def provMain : Provider := ⟨"Main view", [], [], none, false⟩

/-- A companion provider named `B`. -/
def provB : Provider := ⟨"B", [], [], none, false⟩

/-- A heap holding `provMain` at reference 0 and `provB` elsewhere. -/
def heapMB : Heap := fun r => if r = 0 then provMain else provB

/-- A witness state with `provMain` and `provB` registered. -/
def stMB : SSMState := ⟨heapMB, [("Main view", 0), ("B", 1)]⟩

/-! ### Helper lemmas -/

theorem objGet_objSet (k : String) (v : Nat) (name : String) (m : List (String × Nat)) :
    objGet name (objSet k v m) = if k = name then some v else objGet name m := by
  induction m with
  | nil =>
    by_cases h : k = name <;> simp [objSet, objGet, List.find?, h]
  | cons e m ih =>
    by_cases he : e.1 = k
    · by_cases h : k = name
      · simp [objSet, objGet, List.find?, he, h]
      · have hen : ¬ e.1 = name := by rw [he]; exact h
        simp [objSet, objGet, List.find?, he, h, hen]
    · by_cases hen : e.1 = name
      · have hkn : ¬ k = name := fun hk => he (hen.trans hk.symm)
        simp only [objSet, if_neg he, if_neg hkn]
        rw [objGet, objGet, List.find?_cons_of_pos _ (by simp [hen]),
          List.find?_cons_of_pos _ (by simp [hen])]
      · have lhs : objGet name (objSet k v (e :: m)) = objGet name (objSet k v m) := by
          simp [objSet, if_neg he, objGet, List.find?, hen]
        rw [lhs, ih]
        by_cases h : k = name <;> simp [h, objGet, List.find?, hen]

theorem objSet_keys (k : String) (v : Nat) (m : List (String × Nat)) :
    (objSet k v m).map Prod.fst =
      if k ∈ m.map Prod.fst then m.map Prod.fst else m.map Prod.fst ++ [k] := by
  induction m with
  | nil => simp [objSet]
  | cons e m ih =>
    by_cases he : e.1 = k
    · simp [objSet, he]
    · by_cases hk : k ∈ m.map Prod.fst <;>
        simp [objSet, he, hk, ih, Ne.symm he]

theorem objSet_keys_nodup (k : String) (v : Nat) (m : List (String × Nat))
    (h : (m.map Prod.fst).Nodup) : ((objSet k v m).map Prod.fst).Nodup := by
  rw [objSet_keys]
  by_cases hk : k ∈ m.map Prod.fst
  · simpa [hk] using h
  · simp only [hk, if_false]
    exact List.Nodup.append h (List.nodup_singleton k)
      (by simpa [List.disjoint_singleton] using hk)

theorem foldl_add_heap (rs : List Nat) (st : SSMState) :
    (rs.foldl add st).heap = st.heap := by
  induction rs generalizing st with
  | nil => rfl
  | cons r rs ih => simpa [add] using ih _

theorem addAll_heap (h : Heap) (rs : List Nat) : (addAll h rs).heap = h :=
  foldl_add_heap rs _

theorem addAll_sources_nodup (h : Heap) (rs : List Nat) :
    ((addAll h rs).sources.map Prod.fst).Nodup := by
  induction rs using List.reverseRecOn with
  | nil => simp [addAll]
  | append_singleton rs r ih =>
    have h1 : addAll h (rs ++ [r]) = add (addAll h rs) r := by
      simp [addAll, List.foldl_append]
    rw [h1]
    exact objSet_keys_nodup _ _ _ ih

theorem addAll_lookup (h : Heap) (rs : List Nat) (name : String) :
    objGet name (addAll h rs).sources
      = (rs.reverse.find? (fun r => (h r).name = name)) := by
  induction rs using List.reverseRecOn with
  | nil => simp [addAll, objGet]
  | append_singleton rs r ih =>
    have h1 : addAll h (rs ++ [r]) = add (addAll h rs) r := by
      simp [addAll, List.foldl_append]
    rw [h1]
    have h2 : (addAll h rs).heap = h := addAll_heap h rs
    by_cases hr : (h r).name = name
    · simp [add, h2, objGet_objSet, hr, List.find?_cons_of_pos]
    · simp [add, h2, objGet_objSet, hr, ih, List.find?_cons_of_neg]

theorem clearLinks_cons (src : Nat) (e : String × Nat) (l : List (String × Nat)) (h : Heap) :
    clearLinks src (e :: l) h =
      clearLinks src l
        (if (h e.2).linkTarget = some src then
          hUpdate h e.2 (fun p => { p with linkTarget := none })
        else h) := rfl

theorem clearLinks_preserve (src : Nat) (l : List (String × Nat)) (h : Heap) (r : Nat)
    (hr : (h r).linkTarget ≠ some src) :
    ((clearLinks src l h) r).linkTarget ≠ some src := by
  induction l generalizing h with
  | nil => exact hr
  | cons e l ih =>
    rw [clearLinks_cons]
    by_cases hc : (h e.2).linkTarget = some src
    · rw [if_pos hc]
      refine ih _ ?_
      unfold hUpdate
      by_cases hre : r = e.2
      · simp [hre]
      · simpa [hre] using hr
    · rw [if_neg hc]; exact ih h hr

theorem clearLinks_mem (src : Nat) (l : List (String × Nat)) (h : Heap)
    (n : String) (r : Nat) (hmem : (n, r) ∈ l) :
    ((clearLinks src l h) r).linkTarget ≠ some src := by
  induction l generalizing h with
  | nil => cases hmem
  | cons e l ih =>
    rw [clearLinks_cons]
    rcases List.mem_cons.mp hmem with heq | htail
    · have hr2 : e.2 = r := by rw [← heq]
      by_cases hc : (h e.2).linkTarget = some src
      · rw [if_pos hc]
        refine clearLinks_preserve src l _ r ?_
        unfold hUpdate
        simp [← hr2]
      · rw [if_neg hc]
        refine clearLinks_preserve src l _ r ?_
        rw [← hr2]; exact hc
    · by_cases hc : (h e.2).linkTarget = some src
      · rw [if_pos hc]; exact ih _ htail
      · rw [if_neg hc]; exact ih _ htail

theorem clearLinks_options (src : Nat) (l : List (String × Nat)) (h : Heap) (r : Nat) :
    ((clearLinks src l h) r).linkTarget = (h r).linkTarget ∨
      ((clearLinks src l h) r).linkTarget = none := by
  induction l generalizing h with
  | nil => exact Or.inl rfl
  | cons e l ih =>
    rw [clearLinks_cons]
    by_cases hc : (h e.2).linkTarget = some src
    · rw [if_pos hc]
      rcases ih (hUpdate h e.2 fun p => { p with linkTarget := none }) with h1 | h1
      · rw [h1]
        unfold hUpdate
        by_cases hre : r = e.2
        · right; simp [hre]
        · left; simp [hre]
      · exact Or.inr h1
    · rw [if_neg hc]; exact ih h

theorem clearLinks_id (src : Nat) (l : List (String × Nat)) (h : Heap)
    (hl : ∀ e ∈ l, (h e.2).linkTarget ≠ some src) :
    clearLinks src l h = h := by
  induction l with
  | nil => rfl
  | cons e l ih =>
    rw [clearLinks_cons, if_neg (hl e (List.mem_cons_self e l))]
    exact ih fun e1 he1 => hl e1 (List.mem_cons_of_mem e he1)

theorem providerRemoveSkeletons_contract (p : Provider) (ids : List Nat) (i : Nat)
    (hi : i ∈ ids) : (providerRemoveSkeletons p ids).hasSkeleton i = false := by
  simp [providerRemoveSkeletons, Provider.hasSkeleton, List.mem_filter]
  intro hmem
  exact hi

theorem findDifference_foldl (source : Provider) (models : List (Nat × Nat))
    (acc : List (Nat × Nat)) :
    models.foldl (fun o kv => if ! source.hasSkeleton kv.1 then o ++ [kv] else o) acc
      = acc ++ models.filter (fun kv => ! source.hasSkeleton kv.1) := by
  induction models generalizing acc with
  | nil => simp
  | cons kv models ih =>
    rw [List.foldl_cons]
    by_cases hc : source.hasSkeleton kv.1
    · rw [if_neg (by simp [hc]), ih]
      simp [List.filter_cons, hc]
    · rw [if_pos (by simp [hc]), ih]
      simp [List.filter_cons, hc]

theorem highlightBroadcast_foldl (caller skid : Nat) (l : List (String × Nat))
    (acc : List (Nat × Nat)) :
    l.foldl (fun acc e => if e.2 = caller then acc else acc ++ [(e.2, skid)]) acc
      = acc ++ (l.filter (fun e => ! decide (e.2 = caller))).map (fun e => (e.2, skid)) := by
  induction l generalizing acc with
  | nil => simp
  | cons e l ih =>
    rw [List.foldl_cons]
    by_cases hc : e.2 = caller
    · rw [if_pos hc]
      simp [ih, List.filter_cons, hc]
    · rw [if_neg hc]
      simp [ih, List.filter_cons, hc]

theorem highlightBroadcast_eq (st : SSMState) (caller skid : Nat) :
    highlightBroadcast st caller skid
      = (st.sources.filter (fun e => ! decide (e.2 = caller))).map (fun e => (e.2, skid)) := by
  unfold highlightBroadcast
  simpa using highlightBroadcast_foldl caller skid st.sources []

theorem setVisibleBroadcast_foldl (st : SSMState) (ids : List Nat) (visible : Bool)
    (l : List (String × Nat)) (acc : List (Nat × (List Nat × Bool))) :
    l.foldl (fun acc e =>
        if (st.heap e.2).hasSetVisible then acc ++ [(e.2, (ids, visible))] else acc) acc
      = acc ++ (l.filter (fun e => (st.heap e.2).hasSetVisible)).map
          (fun e => (e.2, (ids, visible))) := by
  induction l generalizing acc with
  | nil => simp
  | cons e l ih =>
    rw [List.foldl_cons]
    by_cases hc : (st.heap e.2).hasSetVisible
    · rw [if_pos hc]
      simp [ih, List.filter_cons, hc]
    · rw [if_neg hc]
      simp [ih, List.filter_cons, hc]

theorem setVisibleBroadcast_eq (st : SSMState) (ids : List Nat) (visible : Bool) :
    setVisibleBroadcast st ids visible
      = (st.sources.filter (fun e => (st.heap e.2).hasSetVisible)).map
          (fun e => (e.2, (ids, visible))) := by
  unfold setVisibleBroadcast
  simpa using setVisibleBroadcast_foldl st ids visible st.sources []

theorem rsb_foldl_trace (rm : Provider → List Nat → Provider) (ids : List Nat)
    (l : List (String × Nat)) (acc : SSMState × List (Nat × List Nat)) :
    (l.foldl (fun acc e =>
        ({ acc.1 with heap := hUpdate acc.1.heap e.2 (fun p => rm p ids) },
         acc.2 ++ [(e.2, ids)])) acc).2
      = acc.2 ++ l.map (fun e => (e.2, ids)) := by
  induction l generalizing acc with
  | nil => simp
  | cons e l ih => simp [ih]

theorem removeSkeletonsBroadcast_trace (rm : Provider → List Nat → Provider)
    (st : SSMState) (ids : List Nat) :
    (removeSkeletonsBroadcast rm st ids).2 = st.sources.map (fun e => (e.2, ids)) := by
  unfold removeSkeletonsBroadcast
  simpa using rsb_foldl_trace rm ids st.sources (st, [])

theorem rsb_foldl_heap_preserve (rm : Provider → List Nat → Provider) (ids : List Nat)
    (hrm : ∀ p i, i ∈ ids → (rm p ids).hasSkeleton i = false)
    (l : List (String × Nat)) (acc : SSMState × List (Nat × List Nat)) (r : Nat)
    (hr : ∀ i ∈ ids, ((acc.1.heap r).hasSkeleton i) = false) :
    ∀ i ∈ ids,
      (((l.foldl (fun acc e =>
          ({ acc.1 with heap := hUpdate acc.1.heap e.2 (fun p => rm p ids) },
           acc.2 ++ [(e.2, ids)])) acc).1.heap r).hasSkeleton i) = false := by
  induction l generalizing acc with
  | nil => exact hr
  | cons e l ih =>
    refine ih _ ?_
    intro i hi
    unfold hUpdate
    by_cases hre : r = e.2
    · simp only [hre, if_pos rfl]
      exact hrm _ i hi
    · simpa [hre] using hr i hi

theorem rsb_foldl_heap_mem (rm : Provider → List Nat → Provider) (ids : List Nat)
    (hrm : ∀ p i, i ∈ ids → (rm p ids).hasSkeleton i = false)
    (l : List (String × Nat)) (acc : SSMState × List (Nat × List Nat))
    (n : String) (r : Nat) (hmem : (n, r) ∈ l) :
    ∀ i ∈ ids,
      (((l.foldl (fun acc e =>
          ({ acc.1 with heap := hUpdate acc.1.heap e.2 (fun p => rm p ids) },
           acc.2 ++ [(e.2, ids)])) acc).1.heap r).hasSkeleton i) = false := by
  induction l generalizing acc with
  | nil => cases hmem
  | cons e l ih =>
    rcases List.mem_cons.mp hmem with heq | htail
    · have hr2 : e.2 = r := by rw [← heq]
      refine rsb_foldl_heap_preserve rm ids hrm l _ r ?_
      intro i hi
      unfold hUpdate
      simp only [← hr2, if_pos rfl]
      exact hrm _ i hi
    · exact ih _ htail

theorem jsCharLe_total (s t : List Char) :
    jsCharLe s t = true ∨ jsCharLe t s = true := by
  induction s generalizing t with
  | nil => exact Or.inl rfl
  | cons a as ih =>
    cases t with
    | nil => exact Or.inr rfl
    | cons b bs =>
      by_cases hab : a = b
      · rcases ih bs with h | h
        · exact Or.inl (by simp [jsCharLe, hab, h])
        · exact Or.inr (by simp [jsCharLe, hab.symm, h])
      · rcases lt_or_gt_of_ne hab with h | h
        · exact Or.inl (by simp [jsCharLe, hab, h])
        · exact Or.inr (by simp [jsCharLe, Ne.symm hab, h])

theorem jsCharLe_trans (s t u : List Char)
    (h1 : jsCharLe s t = true) (h2 : jsCharLe t u = true) :
    jsCharLe s u = true := by
  induction s generalizing t u with
  | nil => rfl
  | cons a as ih =>
    cases t with
    | nil => simp [jsCharLe] at h1
    | cons b bs =>
      cases u with
      | nil => simp [jsCharLe] at h2
      | cons c cs =>
        by_cases hab : a = b <;> by_cases hbc : b = c
        · have hac : a = c := hab.trans hbc
          simp only [jsCharLe, if_pos hab] at h1
          simp only [jsCharLe, if_pos hbc] at h2
          simp only [jsCharLe, if_pos hac]
          exact ih bs cs h1 h2
        · simp only [jsCharLe, if_neg hbc] at h2
          have hbclt : b < c := by simpa using h2
          have haclt : a < c := hab ▸ hbclt
          have hac : ¬ a = c := ne_of_lt haclt
          simp [jsCharLe, hac, haclt]
        · simp only [jsCharLe, if_neg hab] at h1
          have hablt : a < b := by simpa using h1
          have haclt : a < c := hbc ▸ hablt
          have hac : ¬ a = c := ne_of_lt haclt
          simp [jsCharLe, hac, haclt]
        · simp only [jsCharLe, if_neg hab] at h1
          simp only [jsCharLe, if_neg hbc] at h2
          have hablt : a < b := by simpa using h1
          have hbclt : b < c := by simpa using h2
          have haclt : a < c := lt_trans hablt hbclt
          have hac : ¬ a = c := ne_of_lt haclt
          simp [jsCharLe, hac, haclt]

/-! ### Claims -/

/-- C1: for every provider object removed via `remove` and every provider
still registered afterwards, a `linkTarget` that referenced the removed
object before the call is absent (cleared to `none`) after `remove`
returns, and more generally no remaining registered provider's
`linkTarget` references the removed object. -/
theorem remove_clears_linkTarget (st : SSMState) (src : Nat) (n : String) (q : Nat)
    (hq : (n, q) ∈ (remove st src).sources) :
    ((remove st src).heap q).linkTarget ≠ some src ∧
      ((st.heap q).linkTarget = some src → ((remove st src).heap q).linkTarget = none) := by
  have hne : ((remove st src).heap q).linkTarget ≠ some src :=
    clearLinks_mem src (objDelete ((st.heap src).name) st.sources) st.heap n q hq
  refine ⟨hne, fun hbefore => ?_⟩
  rcases clearLinks_options src (objDelete ((st.heap src).name) st.sources) st.heap q
    with h1 | h1
  · exact absurd (h1.trans hbefore) hne
  · exact h1

/-- Witness for C1: in the concrete state `stPQ`, `provQ`'s `linkTarget`
references `provP` (reference 0); after `remove stPQ 0` the provider `Q`
is still registered and its `linkTarget` is cleared. -/
theorem remove_clears_linkTarget_witness :
    (stPQ.heap 1).linkTarget = some 0 ∧ ((remove stPQ 0).heap 1).linkTarget = none := by
  have h := remove_clears_linkTarget stPQ 0 "Q" 1 (by decide)
  exact ⟨by decide, h.2 (by decide)⟩

/-- C2: after any sequence of `add` calls starting from an empty registry,
the table's keys are pairwise distinct (exactly one entry per distinct
name) and looking a name up yields exactly the most recently added
provider bearing that name — last-write-wins, a colliding `add` silently
overwrites (`add` is total, so no error is ever raised). -/
theorem add_last_write_wins (h : Heap) (rs : List Nat) (name : String) :
    ((addAll h rs).sources.map Prod.fst).Nodup ∧
      objGet name (addAll h rs).sources
        = rs.reverse.find? (fun r => (h r).name = name) :=
  ⟨addAll_sources_nodup h rs, addAll_lookup h rs name⟩

/-- C3: `findDifference` returns exactly the sub-mapping of `models` whose
keys the provider does not hold (`hasSkeleton` false), values untouched.
(As a Lean function of its two arguments it is pure and mutates neither,
mirroring the JavaScript, which accumulates into a fresh object.) -/
theorem findDifference_eq_filter (source : Provider) (models : List (Nat × Nat)) :
    findDifference source models
      = models.filter (fun kv => ! source.hasSkeleton kv.1) := by
  unfold findDifference
  simpa using findDifference_foldl source models []

/-- C4: `removeSkeletons` invokes the provider-side `removeSkeletons` with
the given identifier list on every registered provider — the trace holds a
call for each table entry, with no originator exemption — and, assuming
providers honour the capability contract (a removed identifier is no
longer reported by `hasSkeleton`), afterwards every registered provider's
`hasSkeleton` is `false` on every broadcast identifier. -/
theorem removeSkeletons_broadcast_complete (rm : Provider → List Nat → Provider)
    (st : SSMState) (ids : List Nat)
    (hrm : ∀ p i, i ∈ ids → (rm p ids).hasSkeleton i = false)
    (n : String) (r : Nat) (hmem : (n, r) ∈ st.sources) :
    (r, ids) ∈ (removeSkeletonsBroadcast rm st ids).2 ∧
      ∀ i ∈ ids,
        (((removeSkeletonsBroadcast rm st ids).1.heap r).hasSkeleton i) = false := by
  constructor
  · rw [removeSkeletonsBroadcast_trace]
    exact List.mem_map.mpr ⟨(n, r), hmem, rfl⟩
  · exact rsb_foldl_heap_mem rm ids hrm st.sources (st, []) n r hmem

/-- Witness for C4: with the spec-modelled contract-honouring provider
method, broadcasting removal of skeleton 5 over `stS` invokes provider 0
(which previously held 5) and leaves it without skeleton 5. -/
theorem removeSkeletons_broadcast_complete_witness :
    (stS.heap 0).hasSkeleton 5 = true ∧
      (0, [5]) ∈ (removeSkeletonsBroadcast providerRemoveSkeletons stS [5]).2 ∧
      ((removeSkeletonsBroadcast providerRemoveSkeletons stS [5]).1.heap 0).hasSkeleton 5
        = false := by
  have h := removeSkeletons_broadcast_complete providerRemoveSkeletons stS [5]
    (fun p i hi => providerRemoveSkeletons_contract p [5] i hi) "S" 0 (by decide)
  exact ⟨by decide, h.1, h.2 5 (by decide)⟩

/-- C5: `highlight` delivers the given identifier to exactly the
registered providers that are not reference-identical to the caller: every
non-caller registered provider receives the call and the caller itself
never does. -/
theorem highlight_excludes_caller (st : SSMState) (caller skid : Nat) (r s : Nat) :
    (r, s) ∈ highlightBroadcast st caller skid ↔
      s = skid ∧ r ≠ caller ∧ ∃ n, (n, r) ∈ st.sources := by
  rw [highlightBroadcast_eq]
  simp only [List.mem_map, List.mem_filter]
  constructor
  · rintro ⟨e, ⟨he, hne⟩, heq⟩
    injection heq with h1 h2
    subst h1
    subst h2
    refine ⟨rfl, by simpa using hne, e.1, ?_⟩
    simpa using he
  · rintro ⟨rfl, hne, n, hmem⟩
    exact ⟨(n, r), ⟨hmem, by simpa using hne⟩, rfl⟩

/-- C6: when no counterpart resolves for a reference provider, both
`getSelectedSkeletons` and `getSelectedSkeletonModels` return an empty
collection plus an informational console signal (the functions are total,
so nothing is thrown); when a counterpart resolves but its selection
(resp. model mapping) is empty, they return empty plus a growl notice
distinct from the unresolved-counterpart signal. -/
theorem getSelected_signals (st : SSMState) (sel : List Char → Option String) (ref : Nat) :
    (getSelectedSource st sel ref = none →
      getSelectedSkeletons st sel ref
          = ([], some (Signal.consoleLog
              ("No source found for reference source " ++ (st.heap ref).name))) ∧
        getSelectedSkeletonModels st sel ref
          = ([], some (Signal.consoleLog
              ("No source found for reference source " ++ (st.heap ref).name)))) ∧
    (∀ src, getSelectedSource st sel ref = some src →
      ((st.heap src).selection = [] →
        getSelectedSkeletons st sel ref
            = ([], some (Signal.growlInfo
                ("No skeletons available at " ++ (st.heap src).name))) ∧
          Signal.growlInfo ("No skeletons available at " ++ (st.heap src).name)
            ≠ Signal.consoleLog
                ("No source found for reference source " ++ (st.heap ref).name)) ∧
      ((st.heap src).models = [] →
        getSelectedSkeletonModels st sel ref
            = ([], some (Signal.growlInfo
                ("No skeletons selected at " ++ (st.heap src).name))) ∧
          Signal.growlInfo ("No skeletons selected at " ++ (st.heap src).name)
            ≠ Signal.consoleLog
                ("No source found for reference source " ++ (st.heap ref).name))) := by
  refine ⟨fun hnone => ⟨?_, ?_⟩, fun src hsome => ⟨fun hemp => ⟨?_, by simp⟩,
    fun hemp => ⟨?_, by simp⟩⟩⟩
  · simp [getSelectedSkeletons, hnone]
  · simp [getSelectedSkeletonModels, hnone]
  · simp [getSelectedSkeletons, hsome, hemp]
  · simp [getSelectedSkeletonModels, hsome, hemp]

/-- Witness for C6 at the concrete state `stEmptyA`: choosing the
unregistered name `B` yields the unresolved-counterpart log signal with
empty results; choosing `A` itself, whose selection and model mapping are
empty, yields the two growl notices. -/
theorem getSelected_signals_witness :
    getSelectedSkeletons stEmptyA selB 0
        = ([], some (Signal.consoleLog "No source found for reference source A")) ∧
      getSelectedSkeletonModels stEmptyA selB 0
        = ([], some (Signal.consoleLog "No source found for reference source A")) ∧
      getSelectedSkeletons stEmptyA selA 0
        = ([], some (Signal.growlInfo "No skeletons available at A")) ∧
      getSelectedSkeletonModels stEmptyA selA 0
        = ([], some (Signal.growlInfo "No skeletons selected at A")) := by
  have h1 := (getSelected_signals stEmptyA selB 0).1 (by decide)
  have h2 := (getSelected_signals stEmptyA selA 0).2 0 (by decide)
  exact ⟨h1.1, h1.2, (h2.1 (by decide)).1, (h2.2 (by decide)).1⟩

/-- C7 counterexample: removing a provider that is not registered is NOT
always a no-op.  Two distinct provider objects both named `A` are added in
sequence, so the table holds only reference 1; `remove` of the
unregistered reference 0 nevertheless deletes that entry, because deletion
is keyed by the argument's name. -/
theorem remove_unregistered_cex :
    stAA.heap 0 ≠ stAA.heap 1 ∧
      stAA.sources = [("A", 1)] ∧ (remove stAA 0).sources = [] := by
  refine ⟨by decide, by decide, by decide⟩

/-- C7 (amended): `remove` of a provider is a no-op — table, heap (hence
every remaining provider's `linkTarget`) and all presentation state
derived from them unchanged, no error raised — provided no table entry is
keyed by the provider's name and no registered provider's `linkTarget`
references it. -/
theorem remove_unregistered_noop (st : SSMState) (src : Nat)
    (hname : ∀ e ∈ st.sources, e.1 ≠ (st.heap src).name)
    (hlink : ∀ e ∈ st.sources, (st.heap e.2).linkTarget ≠ some src) :
    remove st src = st := by
  have hdel : objDelete ((st.heap src).name) st.sources = st.sources :=
    List.filter_eq_self.mpr (fun e he => by simpa using hname e he)
  unfold remove
  simp only [hdel, clearLinks_id src st.sources st.heap hlink]

/-- Witness for C7: reference 2 resolves to the provider `Z`, which is not
registered in `stPQ` under any name and which no registered provider
links to; removing it leaves the state unchanged. -/
theorem remove_unregistered_noop_witness : remove stPQ 2 = stPQ :=
  remove_unregistered_noop stPQ 2 (by decide) (by decide)

/-- C8: `setVisible` delivers the identifier set and flag to exactly those
registered providers that implement the optional visibility capability;
providers lacking it receive no call and are silently skipped (the
broadcast is total, so no error is raised). -/
theorem setVisible_capability_probe (st : SSMState) (ids : List Nat) (visible : Bool)
    (r : Nat) (x : List Nat × Bool) :
    (r, x) ∈ setVisibleBroadcast st ids visible ↔
      x = (ids, visible) ∧ (st.heap r).hasSetVisible = true ∧ ∃ n, (n, r) ∈ st.sources := by
  rw [setVisibleBroadcast_eq]
  simp only [List.mem_map, List.mem_filter]
  constructor
  · rintro ⟨e, ⟨he, hcap⟩, heq⟩
    injection heq with h1 h2
    subst h1
    subst h2
    refine ⟨rfl, hcap, e.1, ?_⟩
    simpa using he
  · rintro ⟨rfl, hcap, n, hmem⟩
    exact ⟨(n, r), ⟨hmem, hcap⟩, rfl⟩

/-- C9 counterexample: at rebuild the counterpart list can contain the
provider's own name: `a-b` is registered in `stHy`, and the options that
`updateGUI` rebuilds for its own select element (whose id decodes to
`a b`, not `a-b`) include `a-b` itself. -/
theorem counterpart_options_cex :
    ("a-b", 0) ∈ stHy.sources ∧
      "a-b" ∈ rebuiltOptions stHy (createSelectID "a-b".data) := by
  refine ⟨by decide, by decide⟩

/-- C9 (amended): `createOptions` offers exactly the registered provider
names (a permutation of the table's keys) in lexicographic order, and the
counterpart list never contains the provider's own name at initial build
(`createSelect`); at rebuild (`updateGUI`) the same holds provided the
name decoded from the provider's select id is the provider's name again —
which fails for, e.g., hyphenated names (see the counterexample). -/
theorem counterpart_options_sorted_self_excluding (st : SSMState) (src : Nat) :
    (createOptions st).Sorted (fun a b => jsCharLe a.data b.data = true) ∧
      (createOptions st).Perm (st.sources.map Prod.fst) ∧
      (st.heap src).name ∉ createSelectOptions st src ∧
      (decodeSelectName (createSelectID (st.heap src).name.data)
          = (st.heap src).name.data →
        (st.heap src).name ∉ rebuiltOptions st (createSelectID (st.heap src).name.data)) := by
  refine ⟨?_, ?_, ?_, fun hdecode => ?_⟩
  · haveI : IsTotal String (fun a b => jsCharLe a.data b.data = true) :=
      ⟨fun a b => jsCharLe_total a.data b.data⟩
    haveI : IsTrans String (fun a b => jsCharLe a.data b.data = true) :=
      ⟨fun a b c => jsCharLe_trans a.data b.data c.data⟩
    exact List.sorted_insertionSort _ _
  · exact List.perm_insertionSort _ _
  · simp [createSelectOptions, List.mem_filter]
  · simp [rebuiltOptions, List.mem_filter, hdecode]

/-- Witness for C9 at the concrete state `stMB`: for the hyphen-free name
`Main view` the decode hypothesis holds, so the sorted option list, the
permutation property and both self-exclusions follow. -/
theorem counterpart_options_witness :
    (createOptions stMB).Sorted (fun a b => jsCharLe a.data b.data = true) ∧
      (createOptions stMB).Perm (stMB.sources.map Prod.fst) ∧
      (stMB.heap 0).name ∉ createSelectOptions stMB 0 ∧
      (stMB.heap 0).name ∉ rebuiltOptions stMB (createSelectID (stMB.heap 0).name.data) := by
  have h := counterpart_options_sorted_self_excluding stMB 0
  exact ⟨h.1, h.2.1, h.2.2.1, h.2.2.2 (by decide)⟩

/-- C10 counterexample: the round-trip does NOT hold for every hyphen-free
name: `push it` contains no hyphen, yet its select id contains `-push-`
(straddling the boundary between the fixed 23-character id head and the
encoded name), so the decode used at rebuild yields a single space rather
than the original name. -/
theorem selectID_roundtrip_cex :
    ('-' ∉ "push it".data) ∧
      decodeSelectName (createSelectID "push it".data) = " ".data ∧
      decodeSelectName (createSelectID "push it".data) ≠ "push it".data := by
  refine ⟨by decide, by decide, by decide⟩

/-- C10 (amended): the id built by `createSelectID` decodes back (by the
`updateGUI` decoding) to the original provider name for every name that
contains no hyphen and whose id does not contain the `-push-` marker; and
for a name containing a hyphen, such as `a-b`, the round-trip yields a
different name. -/
theorem selectID_roundtrip :
    (∀ name : List Char, '-' ∉ name →
        indexOfSub (createSelectID name) pushMarker = none →
        decodeSelectName (createSelectID name) = name) ∧
      decodeSelectName (createSelectID "a-b".data) ≠ "a-b".data := by
  constructor
  · intro name hh hp
    unfold decodeSelectName
    rw [hp]
    have hlen : (createSelectID name).length = 23 + name.length := by
      simp [createSelectID, selectIdStart]
      omega
    unfold jsSubstring
    rw [hlen]
    have hmin : min 23 (23 + name.length) = 23 := by omega
    have hmax : max 23 (23 + name.length) = 23 + name.length := by omega
    rw [hmin, hmax, ← hlen, List.take_length]
    unfold createSelectID
    have h23 : selectIdStart.length = 23 := by decide
    rw [← h23, List.drop_left, List.map_map]
    have hpt : ∀ c ∈ name,
        ((fun c => if c = '-' then ' ' else c) ∘ (fun c => if c = ' ' then '-' else c)) c
          = id c := by
      intro c hc
      by_cases hsp : c = ' '
      · simp [hsp]
      · have hhy : ¬ c = '-' := fun hcon => hh (hcon ▸ hc)
        simp [hsp, hhy]
    rw [List.map_congr_left hpt, List.map_id]
  · decide

/-- Witness for C10 at a concrete hyphen-free name. -/
theorem selectID_roundtrip_witness :
    decodeSelectName (createSelectID "Main view".data) = "Main view".data :=
  selectID_roundtrip.1 "Main view".data (by decide) (by decide)

end CATMAID
